import Mathlib

/-!
Verification development for the cola web framework's routing core.

The Go sources embedded here are the router/dispatch core: route
registration (`Core.pushMethod`, `Core.addRoute`, `Core.buildTree`),
request dispatch (`Core.next`, `Core.handleRequest`), and the pooled
request context (`Ctx.init`, `Ctx.depPaths`, `Ctx.Next`).

Go machine details are modelled as follows: byte strings are `String`
(ASCII paths assumed, so `ToLowerBytes` agrees with `String.toLower`),
Go slices are `List`, the `*Route` pointers shared between per-method
stacks are modelled by a route heap (`Core.heap`) addressed by `Nat`
ids, `panic` is `Except.error`, and Go handler functions (`func(*Ctx)`)
are opaque handler ids (`Nat`): the dispatcher's observable behaviour is
which handler of which route it invokes, captured in the step results.

Helpers that live in files absent from the provided sources (the route
pattern parser, the structural matcher, the HTTP method table and
`methodExist`) are modelled from the spec; each such definition carries
a doc comment starting with `Modelled from the spec:`.
-/

namespace Cola

/-- Modelled from the spec: the method table of the router (the `Methods`
slice lives in the absent router file); the standard concrete HTTP
methods, in the framework's order. -/
def Methods : List String :=
  ["GET", "HEAD", "POST", "PUT", "DELETE", "CONNECT", "OPTIONS", "TRACE", "PATCH"]

/-- The `USE` pseudo-method for middleware registration. -/
def methodUse : String := "USE"

/-- Modelled from the spec: `methodInt` maps a concrete HTTP method name
to its index in `Methods`, and any unknown method to `-1`. -/
def methodInt (method : String) : Int :=
  match Methods.findIdx? (fun m => m == method) with
  | some i => Int.ofNat i
  | none => -1

/-- `maxParams` defines the maximum number of parameters per route
(src/view.go line 274). -/
def maxParams : Nat := 30

/-- ASCII lowercase of one character (the Go helpers work byte-wise on
ASCII). -/
def lowerChar (ch : Char) : Char :=
  if 'A' ≤ ch ∧ ch ≤ 'Z' then Char.ofNat (ch.toNat + 32) else ch

/-- ASCII uppercase of one character. -/
def upperChar (ch : Char) : Char :=
  if 'a' ≤ ch ∧ ch ≤ 'z' then Char.ofNat (ch.toNat - 32) else ch

/-- Uppercase helper (`ToUpper` of the absent utils file; ASCII). -/
def ToUpper (s : String) : String := ⟨s.data.map upperChar⟩

/-- Lowercase helper (`ToLower` / `ToLowerBytes` of the absent utils
file; ASCII). -/
def ToLower (s : String) : String := ⟨s.data.map lowerChar⟩

/-- `TrimRight`/`TrimRightBytes`: removes all trailing occurrences of a
character. -/
def TrimRight (s : String) (c : Char) : String :=
  ⟨(s.data.reverse.dropWhile (fun x => x == c)).reverse⟩

/-- The first `n` characters of a string (Go's `s[:n]` on ASCII). -/
def strTake (s : String) (n : Nat) : String := ⟨s.data.take n⟩

/-- The string without its first `n` characters (Go's `s[n:]` on
ASCII). -/
def strDrop (s : String) (n : Nat) : String := ⟨s.data.drop n⟩

/-- Whether the first character is `c` (Go's `s[0] == c` with the empty
check). -/
def headIs (s : String) (c : Char) : Bool :=
  match s.data with
  | [] => false
  | a :: _ => a == c

/-- Whether the last character is `c` (Go's `s[len(s)-1] == c` with the
empty check). -/
def lastIs (s : String) (c : Char) : Bool := s.data.getLast? == some c

/-- Modelled from the spec: the status-message table used by
`Ctx.SendStatus` (the `StatusMessage` table lives in an absent file);
only the statuses the embedded paths can produce are listed. -/
def StatusMessage (status : Nat) : String :=
  if status = 400 then "Bad Request"
  else if status = 404 then "Not Found"
  else if status = 405 then "Method Not Allowed"
  else if status = 500 then "Internal Server Error"
  else ""

/-- Modelled from the spec: one segment of a compiled route pattern —
either a literal (`Const`), a named parameter (with an optional flag),
or a wildcard consuming the remainder of the path. -/
structure RouteSeg where
  Const : String
  IsParam : Bool
  ParamName : String
  IsOptional : Bool
  IsWildcard : Bool
  deriving Repr, DecidableEq

/-- Modelled from the spec: a compiled route pattern — the ordered
segments plus the left-to-right parameter names. -/
structure RouteParser where
  segs : List RouteSeg
  params : List String
  deriving Repr, DecidableEq

/-- Split a character list on `/`, keeping the pieces between
separators (empty pieces included, filtered by the caller). -/
def splitSlash (acc : List Char) : List Char → List (List Char)
  | [] => [acc.reverse]
  | ch :: rest =>
    if ch == '/' then acc.reverse :: splitSlash [] rest
    else splitSlash (ch :: acc) rest

/-- Split a path into its non-empty pieces, each keeping its leading
slash (`"/hello/world"` to `["/hello", "/world"]`): literal segments of
a compiled pattern carry their leading slash, which is what makes the
first three characters of a route's leading literal segment line up with
the first three characters of a detection path (the spec's bucketing
correctness property). -/
def splitParts (s : String) : List String :=
  ((splitSlash [] s.data).filter (fun p => p ≠ [])).map (fun p => ⟨'/' :: p⟩)

/-- Modelled from the spec: compile one slash-prefixed path piece:
`/:name` and `/:name?` are parameters (the latter optional), `/*` and
`/+` wildcards consume the remainder (`*` may match nothing, `+` needs
at least one piece, their capture is named by the marker plus `1`), all
else is literal. -/
def parseSeg (piece : String) : RouteSeg :=
  if piece == "/*" || piece == "/+" then
    { Const := "", IsParam := true, ParamName := strDrop piece 1 ++ "1",
      IsOptional := piece == "/*", IsWildcard := true }
  else if strTake piece 2 == "/:" then
    { Const := "", IsParam := true,
      ParamName := TrimRight (strDrop piece 2) '?',
      IsOptional := lastIs piece '?', IsWildcard := false }
  else
    { Const := piece, IsParam := false, ParamName := "",
      IsOptional := false, IsWildcard := false }

/-- Modelled from the spec: `parseRoute` compiles a pattern string into
its segment list and parameter names (the parser file is absent from the
sources; the spec fixes its contract in §4.1). -/
def parseRoute (pattern : String) : RouteParser :=
  let segs := (splitParts pattern).map parseSeg
  { segs := segs, params := (segs.filter (fun s => s.IsParam)).map (fun s => s.ParamName) }

/-- A registered route (the Go `Route` struct): router flags, the
normalized path (`path`) with its compiled pattern, the raw registered
path (`Path`), method, handler chain (opaque handler ids) and the
registration sequence number `pos`. -/
structure Route where
  use : Bool
  star : Bool
  root : Bool
  path : String
  routeParser : RouteParser
  Params : List String
  Path : String
  Method : String
  Handlers : List Nat
  pos : Nat
  deriving Repr, DecidableEq

instance : Inhabited Route :=
  ⟨{ use := false, star := false, root := false, path := "",
     routeParser := { segs := [], params := [] }, Params := [],
     Path := "", Method := "", Handlers := [], pos := 0 }⟩

/-- Write a captured parameter value into the positional value array
(Go: `values[i] = v`; out-of-range writes cannot occur for well-formed
routes since the parameter count is capped). -/
def setValue (values : List String) (i : Nat) (v : String) : List String :=
  values.set i v

/-- Concatenate slash-prefixed pieces and drop the leading slash, the
form a wildcard capture takes (`["/a", "/b"]` captures as `"a/b"`). -/
def joinCapture (pieces : List String) : String :=
  ⟨((pieces.map String.data).flatten).drop 1⟩

/-- Modelled from the spec: structural matching of compiled segments
against the slash-prefixed pieces of the detection path (used for
comparison) and of the user path (used for captures), writing captures
positionally into the value array; literal pieces must be equal, a
parameter captures its piece (an optional parameter may be absent only
as the final segment), a wildcard consumes and captures the remainder.
Returns the updated values on success. -/
def matchSegs : List RouteSeg → List String → List String → List String → Nat → Option (List String)
  | [], [], values, _, _ => some values
  | [], _ :: _, _, _, _ => none
  | seg :: rest, dparts, values, pparts, i =>
    if seg.IsWildcard then
      if dparts.isEmpty && !seg.IsOptional then none
      else some (setValue values i (joinCapture pparts))
    else if seg.IsParam then
      match dparts, pparts with
      | _ :: ds, p :: ps => matchSegs rest ds (setValue values i (strDrop p 1)) ps (i + 1)
      | [], [] => if seg.IsOptional && rest.isEmpty then some (setValue values i "") else none
      | _, _ => none
    else
      match dparts, pparts with
      | d :: ds, _ :: ps => if d = seg.Const then matchSegs rest ds values ps i else none
      | _, _ => none

/-- Modelled from the spec: the Go `Route.match(detectionPath, path,
&values)` — match the compiled pattern against the detection path,
capturing parameter values from the user path. -/
def routeMatch (r : Route) (detectionPath path : String) (values : List String) : Option (List String) :=
  matchSegs r.routeParser.segs (splitParts detectionPath) values (splitParts path) 0

/-- The Go `Core` struct, restricted to routing state. `heap` models the
arena of `Route` records that the Go code addresses through `*Route`
pointers; `stack` and `treeStack` hold heap indices in place of
pointers. -/
structure Core where
  CaseSensitive : Bool
  heap : List Route
  stack : List (List Nat)
  treeStack : List (List (String × List Nat))
  routesCount : Nat
  deriving Repr, DecidableEq

/-- `New`: a fresh core with one empty stack and tree per method. -/
def newCore (caseSensitive : Bool) : Core :=
  { CaseSensitive := caseSensitive, heap := [],
    stack := List.replicate Methods.length [],
    treeStack := List.replicate Methods.length [],
    routesCount := 0 }

/-- Dereference a route pointer (heap index). -/
def heapGet (c : Core) (rid : Nat) : Route :=
  c.heap.getD rid default

/-- The tree bucket key of a route: the first three characters of its
leading literal segment, or `""` when that segment has fewer than three
literal characters (`Core.buildTree`'s `treePath` computation). -/
def treeKeyOf (r : Route) : String :=
  match r.routeParser.segs with
  | [] => ""
  | s :: _ => if 3 ≤ s.Const.length then strTake s.Const 3 else ""

/-- First-occurrence deduplication, generic in the element type. -/
def uniqAux [DecidableEq α] (seen : List α) : List α → List α
  | [] => []
  | x :: rest => if x ∈ seen then uniqAux seen rest else x :: uniqAux (x :: seen) rest

/-- `uniqueRouteStack` of the absent router utilities: drop duplicate
route pointers, keeping first occurrences (pointer identity is heap-id
equality here). -/
def uniqueRouteStack (rids : List Nat) : List Nat :=
  uniqAux [] rids

/-- Go map lookup on an association list (`tree, ok := m[key]`). -/
def lookupKey (m : List (String × List Nat)) (key : String) : Option (List Nat) :=
  match m with
  | [] => none
  | kv :: rest => if kv.1 = key then some kv.2 else lookupKey rest key

/-- The routes of method `m` whose tree key is `key`, in stack order —
the content a Go map bucket holds after `buildTree`'s grouping loop. -/
def bucketRaw (c : Core) (m : Nat) (key : String) : List Nat :=
  (c.stack.getD m []).filter (fun rid => treeKeyOf (heapGet c rid) == key)

/-- `sort.Slice(..., pos < pos)`: sort a bucket ascending by
registration sequence number. -/
def sortByPos (c : Core) (l : List Nat) : List Nat :=
  l.insertionSort (fun a b => (heapGet c a).pos ≤ (heapGet c b).pos)

/-- The final content of one tree bucket after `Core.buildTree`: the
empty key holds its own routes; every other key holds its own routes
merged with the empty-key routes, duplicates removed; every bucket is
sorted by registration sequence number. -/
def bucketFinal (c : Core) (m : Nat) (key : String) : List Nat :=
  if key = "" then sortByPos c (bucketRaw c m key)
  else sortByPos c (uniqueRouteStack (bucketRaw c m key ++ bucketRaw c m ""))

/-- One method's rebuilt tree (`Core.buildTree` body for method `m`):
group the stack by tree key, then merge the method-agnostic `""` bucket
into every non-empty-key bucket with duplicates removed, and sort every
bucket by registration sequence number. The Go code builds the groups
by appending into a map; the per-key content is exactly the stack
filtered by key, which is how the grouping is written here. -/
def buildTreeFor (c : Core) (m : Nat) : List (String × List Nat) :=
  let rids := c.stack.getD m []
  let keys := uniqAux [] (rids.map (fun rid => treeKeyOf (heapGet c rid)))
  keys.map (fun key => (key, bucketFinal c m key))

/-- `Core.buildTree`: rebuild the derived per-method prefix index from
the per-method stacks. -/
def buildTree (c : Core) : Core :=
  { c with treeStack := (List.range Methods.length).map (fun m => buildTreeFor c m) }

/-- `Core.addRoute`: if the route's raw path and use-flag equal those of
the last-inserted route of the method, append its handler chain to that
route (no new entry, count unchanged); otherwise bump the global route
count, stamp the route's sequence number and method, and append it to
the method's stack. Always rebuilds the tree. -/
def addRoute (c : Core) (method : String) (rid : Nat) : Core :=
  let m := (methodInt method).toNat
  let stk := c.stack.getD m []
  let route := heapGet c rid
  let merged : Option Core :=
    match stk.getLast? with
    | some lid =>
      let pre := heapGet c lid
      if pre.Path = route.Path ∧ route.use = pre.use then
        some { c with heap := c.heap.set lid { pre with Handlers := pre.Handlers ++ route.Handlers } }
      else none
    | none => none
  let c' :=
    match merged with
    | some c2 => c2
    | none =>
      let cnt := c.routesCount + 1
      { c with routesCount := cnt,
               heap := c.heap.set rid { route with pos := cnt, Method := method },
               stack := c.stack.set m (stk ++ [rid]) }
  buildTree c'

/-- The raw-path fixups at the head of `Core.pushMethod`: empty becomes
`/`, and a missing leading slash is prepended. -/
def fixRawPath (pathRaw : String) : String :=
  let p := if pathRaw = "" then "/" else pathRaw
  if headIs p '/' then p else "/" ++ p

/-- The pretty-path normalization of `Core.pushMethod`: lowercase unless
case-sensitive routing, and strip trailing slashes, both only on
non-root paths. -/
def prettifyPath (caseSensitive : Bool) (p : String) : String :=
  let p := if !caseSensitive && 1 < p.length then ToLower p else p
  if 1 < p.length then TrimRight p '/' else p

/-- `Core.pushMethod`: validate the method and handler chain (the Go
code panics on violations, modelled as `Except.error`), normalize the
path, compile it, allocate the `Route` record, and add it — under `USE`
to every concrete method, otherwise to its own method. The
parameter-count cap is modelled from the spec (the check lives in the
absent parser file): a pattern with more than `maxParams` parameters is
a registration-time fatal error. -/
def pushMethod (c : Core) (method pathRaw : String) (handlers : List Nat) : Except String Core :=
  let method := ToUpper method
  if method ≠ methodUse ∧ methodInt method = -1 then
    Except.error ("pushMethod: invalid http method " ++ method)
  else if handlers = [] then
    Except.error ("missing handler in route: " ++ pathRaw)
  else
    let pathRaw := fixRawPath pathRaw
    let pathPretty := prettifyPath c.CaseSensitive pathRaw
    let parsedRaw := parseRoute pathRaw
    let parsedPretty := parseRoute pathPretty
    if maxParams < parsedRaw.params.length then
      Except.error ("too many parameters in route: " ++ pathRaw)
    else
      let route : Route :=
        { use := method == methodUse, star := pathPretty == "/*", root := pathPretty == "/",
          path := pathPretty, routeParser := parsedPretty, Params := parsedRaw.params,
          Path := pathRaw, Method := method, Handlers := handlers, pos := 0 }
      let rid := c.heap.length
      let c := { c with heap := c.heap ++ [route] }
      if method = methodUse then
        Except.ok (Methods.foldl (fun acc mth => addRoute acc mth rid) c)
      else
        Except.ok (addRoute c method rid)

/-- The request data `Ctx.init` reads from the fasthttp request context:
the HTTP method and the original request path. -/
structure Request where
  method : String
  pathOriginal : String
  deriving Repr, DecidableEq

/-- The response state carried by the per-request fasthttp context:
status code and body. -/
structure Response where
  status : Nat
  body : String
  deriving Repr, DecidableEq

/-- The pooled request context (the Go `Ctx` struct, routing fields).
The embedded fasthttp `RequestCtx` is represented by the `response`
field it carries; `route` is the matched-route pointer (heap id). -/
structure Ctx where
  index : Int
  indexHandler : Nat
  method : String
  methodINT : Int
  path : String
  detectionPath : String
  pathOriginal : String
  values : List String
  treePath : String
  matched : Bool
  route : Option Nat
  baseURI : String
  response : Response
  deriving Repr, DecidableEq

/-- The zero-valued `Ctx` the pool's `New` allocates (`new(Ctx)`). -/
def newCtx : Ctx :=
  { index := 0, indexHandler := 0, method := "", methodINT := 0, path := "",
    detectionPath := "", pathOriginal := "", values := List.replicate maxParams "",
    treePath := "", matched := false, route := none, baseURI := "",
    response := { status := 0, body := "" } }

/-- `Ctx.depPaths`: recompute the user path, the detection path
(lowercased unless case-sensitive routing, trailing slashes stripped on
non-root paths) and the three-character tree path from the original
path. The `UnescapePath` branch delegates to fasthttp's decoder, an
external collaborator outside this model (the option's default, used
here, is off). -/
def depPaths (core : Core) (c : Ctx) : Ctx :=
  let path := c.pathOriginal
  let detectionPath := if !core.CaseSensitive then ToLower path else path
  let detectionPath :=
    if 1 < detectionPath.length ∧ lastIs detectionPath '/' then TrimRight detectionPath '/'
    else detectionPath
  let treePath := if 3 ≤ detectionPath.length then strTake detectionPath 3 else ""
  { c with path := path, detectionPath := detectionPath, treePath := treePath }

/-- `Ctx.init`: the reset performed when a context is taken from the
pool for a request. Sets the paths, method and its integer form, resets
the route cursor, handler cursor, matched flag and base URI, attaches
the fresh request's fasthttp context (a fresh response), and recomputes
the derived paths. The `values` array and the `route` pointer are not
touched (the `releaseCtx` line that would clear the route is commented
out in the source). -/
def Ctx.init (core : Core) (c : Ctx) (req : Request) : Ctx :=
  depPaths core
    { c with
      pathOriginal := req.pathOriginal,
      path := req.pathOriginal,
      method := req.method,
      methodINT := methodInt req.method,
      response := { status := 200, body := "" },
      index := -1,
      indexHandler := 0,
      matched := false,
      baseURI := "" }

/-- `Ctx.SendString`: set the response body. -/
def Ctx.sendString (c : Ctx) (body : String) : Ctx :=
  { c with response := { c.response with body := body } }

/-- `Ctx.Status`: set the response status code. -/
def Ctx.status (c : Ctx) (s : Nat) : Ctx :=
  { c with response := { c.response with status := s } }

/-- `Ctx.SendStatus`: set the status code and, when the body is still
empty, set the status message as body. -/
def Ctx.sendStatus (c : Ctx) (s : Nat) : Ctx :=
  let c := c.status s
  if c.response.body = "" then c.sendString (StatusMessage s) else c

/-- The bucket selection of `Core.next`: the method's tree bucket for
the context's tree path, falling back to the empty-key bucket when no
bucket exists for that prefix. -/
def selectTree (core : Core) (m : Nat) (key : String) : List Nat :=
  match lookupKey (core.treeStack.getD m []) key with
  | some t => t
  | none => (lookupKey (core.treeStack.getD m []) "").getD []

/-- Whether a candidate route matches the context's request (the
decision `Core.next` makes for each scanned route). -/
def matchesAt (core : Core) (c : Ctx) (rid : Nat) : Bool :=
  (routeMatch (heapGet core rid) c.detectionPath c.path c.values).isSome

/-- Modelled from the spec: `methodExist` — whether the request's path
is registered under some HTTP method other than the requested one, i.e.
some concrete (non-use) route of another method matches the detection
path (use routes are registered under every method and cannot
discriminate). The helper lives in the absent router file; the spec
fixes its meaning in §4.3. -/
def methodExist (core : Core) (c : Ctx) : Bool :=
  (List.range Methods.length).any (fun i =>
    if Int.ofNat i = c.methodINT then false
    else
      (selectTree core i c.treePath).any (fun rid =>
        let r := heapGet core rid
        !r.use && (routeMatch r c.detectionPath c.path c.values).isSome))

/-- The internal error value a dispatch scan can report. -/
inductive RouterErr where
  | methodNotAllowed
  deriving Repr, DecidableEq

/-- The observable outcome of one `Core.next` call: the updated context,
the returned match flag and error, and which handler of which route was
invoked (`none` on the not-found path, where no handler runs). -/
structure StepResult where
  ctx : Ctx
  matchRes : Bool
  err : Option RouterErr
  invoked : Option (Nat × Nat)
  deriving Repr, DecidableEq

/-- The bucket-exhausted tail of `Core.next`: send 404 with the
`Cannot method path` body, and report method-not-allowed when no
concrete route has matched for this request and the path exists under
another method. -/
def notFoundOutcome (core : Core) (c : Ctx) : StepResult :=
  let e := if !c.matched && methodExist core c then some RouterErr.methodNotAllowed else none
  let c := c.sendStatus 404
  let c := c.sendString ("Cannot " ++ c.method ++ " " ++ c.pathOriginal)
  { ctx := c, matchRes := false, err := e, invoked := none }

/-- The scan loop of `Core.next` over the remaining bucket entries,
where `p` is the absolute bucket position of the head: advance the route
cursor, and on the first match record the route and values, update the
matched flag for non-use routes, reset the handler cursor and invoke
handler 0 of the route, stopping the scan. -/
def scanList (core : Core) (c : Ctx) : List Nat → Nat → StepResult
  | [], _ => notFoundOutcome core c
  | rid :: rest, p =>
    let route := heapGet core rid
    match routeMatch route c.detectionPath c.path c.values with
    | some newValues =>
      { ctx :=
          { c with
            index := Int.ofNat p, values := newValues, route := some rid,
            matched := c.matched || !route.use, indexHandler := 0 },
        matchRes := true, err := none, invoked := some (rid, 0) }
    | none => scanList core { c with index := Int.ofNat p } rest (p + 1)

/-- `Core.next`: select the bucket for the context's method and tree
path and scan it starting just after the context's current cursor. -/
def coreNext (core : Core) (c : Ctx) : StepResult :=
  let tree := selectTree core c.methodINT.toNat c.treePath
  let start := (c.index + 1).toNat
  scanList core c (tree.drop start) start

/-- First-hit search: the position and id of the first candidate in the
list (absolute positions starting at `p`) that matches the context's
request. -/
def findHit (core : Core) (c : Ctx) : List Nat → Nat → Option (Nat × Nat)
  | [], _ => none
  | rid :: rest, p => if matchesAt core c rid then some (p, rid) else findHit core c rest (p + 1)

/-- The first matching candidate the next `Core.next` call on this
context would find: first hit in the selected bucket at or after the
position just past the context's cursor. -/
def firstHit (core : Core) (c : Ctx) : Option (Nat × Nat) :=
  let tree := selectTree core c.methodINT.toNat c.treePath
  let start := (c.index + 1).toNat
  findHit core c (tree.drop start) start

/-- What a `Ctx.Next` call does after advancing the handler cursor:
invoke the next handler of the matched route's chain, or delegate back
into the dispatcher's scan. -/
inductive NextOutcome where
  | invoke (rid handlerIdx : Nat)
  | dispatch (res : StepResult)
  deriving Repr, DecidableEq

/-- `Ctx.Next`: advance the handler cursor; when the matched route's
chain still has a handler at the new cursor, invoke it, otherwise
delegate to `Core.next`. With no matched route the Go code dereferences
a nil pointer; that fault is `none`. -/
def Ctx.Next (core : Core) (c : Ctx) : Option (Ctx × NextOutcome) :=
  match c.route with
  | none => none
  | some rid =>
    let c := { c with indexHandler := c.indexHandler + 1 }
    if c.indexHandler < (heapGet core rid).Handlers.length then
      some (c, NextOutcome.invoke rid c.indexHandler)
    else
      let res := coreNext core c
      some (res.ctx, NextOutcome.dispatch res)

/-- The observable result of `Core.handleRequest`: the core (never
mutated by request handling), the final context, and the dispatch scan
that ran (`none` when the method guard rejected the request before any
scan). -/
structure HandleResult where
  core : Core
  ctx : Ctx
  scan : Option StepResult
  deriving Repr, DecidableEq

/-- `Core.handleRequest`: acquire and initialize a pooled context; an
unrecognized method is answered with 400 `Invalid http method` and no
scan; otherwise dispatch via `Core.next`, and on a reported scan error
send status 500. (ETag generation on the matched path delegates to an
absent helper over response headers outside this model.) -/
def handleRequest (core : Core) (pooled : Ctx) (req : Request) : HandleResult :=
  let c := Ctx.init core pooled req
  if c.methodINT = -1 then
    { core := core, ctx := (c.status 400).sendString "Invalid http method", scan := none }
  else
    let res := coreNext core c
    let c :=
      match res.err with
      | some _ => res.ctx.sendStatus 500
      | none => res.ctx
    { core := core, ctx := c, scan := some res }

/-- `Core.releaseCtx`: return the context to the pool. It only detaches
the fasthttp request context; the route pointer reset is commented out
in the source, so `route` and `values` survive into the next
acquisition. -/
def releaseCtx (c : Ctx) : Ctx := c

/-- Run a registration, keeping the core unchanged on a fatal error;
used only to build concrete example cores. -/
def pushOk (c : Core) (m p : String) (hs : List Nat) : Core :=
  match pushMethod c m p hs with
  | Except.ok c' => c'
  | Except.error _ => c

/-- Example application: a root `USE` middleware (handler 0) and a
parameterized `GET /Hello/:name` route (handler 1). -/
def exCore : Core := pushOk (pushOk (newCore false) "USE" "/" [0]) "GET" "/Hello/:name" [1]

/-- Example request matching `exCore`'s GET route. -/
def exReqHello : Request := { method := "GET", pathOriginal := "/Hello/World" }

/-- Example request matching no route of `exCore`. -/
def exReqMiss : Request := { method := "GET", pathOriginal := "/nope" }

/-- Example application with a single `POST /x` route (handler 2). -/
def exCorePost : Core := pushOk (newCore false) "POST" "/x" [2]

/-- Example request hitting `exCorePost`'s path with the wrong method. -/
def exReqGetX : Request := { method := "GET", pathOriginal := "/x" }

/-- Example application with `GET /Foo` registered (handler 10),
case-insensitive routing. -/
def exCoreFoo : Core := pushOk (newCore false) "GET" "/Foo" [10]

/-- `exCoreFoo` after also registering `GET /foo` (handler 11): same
normalized path as the previous registration, different raw path. -/
def exCoreFoo2 : Core := pushOk exCoreFoo "GET" "/foo" [11]

/-- Example application with one `GET /a/b` route carrying a
two-handler chain (handlers 5 and 6). -/
def exCoreTwo : Core := pushOk (newCore false) "GET" "/a/b" [5, 6]

/-- The context of a `GET /a/b` request against `exCoreTwo` right after
its dispatch matched route 0 (handler cursor at 0). -/
def exCtxTwo : Ctx :=
  (coreNext exCoreTwo (Ctx.init exCoreTwo newCtx { method := "GET", pathOriginal := "/a/b" })).ctx

/-- The pooled context as it returns to the pool after `exCore` served
`GET /Hello/World`: its value arrays holds the captured `World` and its
route pointer still points at route 1. -/
def exCtxLeak : Ctx := releaseCtx (handleRequest exCore newCtx exReqHello).ctx

/-- A request with an unrecognized HTTP method. -/
def exReqBad : Request := { method := "FOO", pathOriginal := "/x" }

/-! ### List helper lemmas -/

theorem listGetD_set_ne {α : Type} (x d : α) :
    ∀ (l : List α) (i j : Nat), i ≠ j → (l.set i x).getD j d = l.getD j d := by
  intro l
  induction l with
  | nil => intro i j _; rfl
  | cons a t ih =>
    intro i j h
    cases i with
    | zero =>
      cases j with
      | zero => exact absurd rfl h
      | succ j => rfl
    | succ i =>
      cases j with
      | zero => rfl
      | succ j => exact ih i j (by omega)

theorem listGetD_set_self {α : Type} (x d : α) :
    ∀ (l : List α) (i : Nat), i < l.length → (l.set i x).getD i d = x := by
  intro l
  induction l with
  | nil => intro i h; simp at h
  | cons a t ih =>
    intro i h
    cases i with
    | zero => rfl
    | succ i => exact ih i (by simpa using h)

theorem listGetD_concat_length {α : Type} (x d : α) (l : List α) :
    (l ++ [x]).getD l.length d = x := by
  rw [List.getD_append_right _ _ _ _ (Nat.le_refl _)]
  simp

theorem mem_uniqAux {α : Type} [DecidableEq α] (x : α) :
    ∀ (l seen : List α), x ∈ uniqAux seen l ↔ (x ∈ l ∧ x ∉ seen) := by
  intro l
  induction l with
  | nil => intro seen; simp [uniqAux]
  | cons a t ih =>
    intro seen
    by_cases ha : a ∈ seen
    · rw [uniqAux, if_pos ha, ih]
      constructor
      · rintro ⟨hx, hs⟩; exact ⟨List.mem_cons_of_mem a hx, hs⟩
      · rintro ⟨hx, hs⟩
        rcases List.mem_cons.mp hx with rfl | hx
        · exact absurd ha hs
        · exact ⟨hx, hs⟩
    · rw [uniqAux, if_neg ha]
      simp only [List.mem_cons, ih, List.mem_cons, not_or]
      constructor
      · rintro (rfl | ⟨hx, hne, hs⟩)
        · exact ⟨Or.inl rfl, ha⟩
        · exact ⟨Or.inr hx, hs⟩
      · rintro ⟨rfl | hx, hs⟩
        · exact Or.inl rfl
        · by_cases hxa : x = a
          · exact Or.inl hxa
          · exact Or.inr ⟨hx, hxa, hs⟩

theorem nodup_uniqAux {α : Type} [DecidableEq α] :
    ∀ (l seen : List α), (uniqAux seen l).Nodup := by
  intro l
  induction l with
  | nil => intro seen; simp [uniqAux]
  | cons a t ih =>
    intro seen
    by_cases ha : a ∈ seen
    · rw [uniqAux, if_pos ha]; exact ih seen
    · rw [uniqAux, if_neg ha]
      refine List.nodup_cons.mpr ⟨?_, ih _⟩
      intro hmem
      exact ((mem_uniqAux a t (a :: seen)).mp hmem).2 (List.mem_cons_self a seen)

/-! ### Scan-loop refinement lemmas -/

theorem findHit_index (core : Core) (c : Ctx) (i : Int) :
    ∀ (l : List Nat) (p : Nat), findHit core { c with index := i } l p = findHit core c l p := by
  intro l
  induction l with
  | nil => intro p; rfl
  | cons r t ih =>
    intro p
    have hc : matchesAt core { c with index := i } r = matchesAt core c r := rfl
    rw [findHit, findHit, hc, ih]

theorem scanList_of_findHit_some (core : Core) :
    ∀ (l : List Nat) (p : Nat) (c : Ctx) (q rid : Nat),
      findHit core c l p = some (q, rid) →
      ∃ vals, routeMatch (heapGet core rid) c.detectionPath c.path c.values = some vals ∧
        scanList core c l p =
          { ctx :=
              { c with
                index := Int.ofNat q, values := vals, route := some rid,
                matched := c.matched || !(heapGet core rid).use, indexHandler := 0 },
            matchRes := true, err := none, invoked := some (rid, 0) } := by
  intro l
  induction l with
  | nil => intro p c q rid h; simp [findHit] at h
  | cons r t ih =>
    intro p c q rid h
    rw [findHit] at h
    by_cases hm : matchesAt core c r
    · rw [if_pos hm] at h
      simp only [Option.some.injEq, Prod.mk.injEq] at h
      obtain ⟨rfl, rfl⟩ := h
      obtain ⟨vals, hv⟩ := Option.isSome_iff_exists.mp hm
      refine ⟨vals, hv, ?_⟩
      rw [scanList, hv]
    · rw [if_neg hm] at h
      rw [← findHit_index core c (Int.ofNat p)] at h
      obtain ⟨vals, hv, hs⟩ := ih (p + 1) { c with index := Int.ofNat p } q rid h
      refine ⟨vals, hv, ?_⟩
      have hn : routeMatch (heapGet core r) c.detectionPath c.path c.values = none :=
        Option.not_isSome_iff_eq_none.mp (by simpa [matchesAt] using hm)
      rw [scanList, hn]
      exact hs

theorem scanList_of_findHit_none (core : Core) :
    ∀ (l : List Nat) (p : Nat) (c : Ctx),
      findHit core c l p = none →
      ∃ i : Int, scanList core c l p = notFoundOutcome core { c with index := i } := by
  intro l
  induction l with
  | nil => intro p c _; exact ⟨c.index, rfl⟩
  | cons r t ih =>
    intro p c h
    rw [findHit] at h
    by_cases hm : matchesAt core c r
    · rw [if_pos hm] at h; exact absurd h (by simp)
    · rw [if_neg hm] at h
      rw [← findHit_index core c (Int.ofNat p)] at h
      obtain ⟨i, hs⟩ := ih (p + 1) { c with index := Int.ofNat p } h
      refine ⟨i, ?_⟩
      have hn : routeMatch (heapGet core r) c.detectionPath c.path c.values = none :=
        Option.not_isSome_iff_eq_none.mp (by simpa [matchesAt] using hm)
      rw [scanList, hn]
      exact hs

theorem findHit_spec (core : Core) (c : Ctx) :
    ∀ (l : List Nat) (p q rid : Nat), findHit core c l p = some (q, rid) →
      p ≤ q ∧ l[q - p]? = some rid ∧ matchesAt core c rid = true ∧
        ∀ j x, j < q - p → l[j]? = some x → matchesAt core c x = false := by
  intro l
  induction l with
  | nil => intro p q rid h; simp [findHit] at h
  | cons r t ih =>
    intro p q rid h
    rw [findHit] at h
    by_cases hm : matchesAt core c r
    · rw [if_pos hm] at h
      simp only [Option.some.injEq, Prod.mk.injEq] at h
      obtain ⟨rfl, rfl⟩ := h
      refine ⟨Nat.le_refl _, ?_, hm, ?_⟩
      · simp
      · intro j x hj _; omega
    · rw [if_neg hm] at h
      obtain ⟨hle, hget, hmatch, hfirst⟩ := ih (p + 1) q rid h
      refine ⟨by omega, ?_, hmatch, ?_⟩
      · have hq : q - p = (q - (p + 1)) + 1 := by omega
        rw [hq, List.getElem?_cons_succ]
        exact hget
      · intro j x hj hx
        cases j with
        | zero =>
          simp only [List.getElem?_cons_zero, Option.some.injEq] at hx
          rw [← hx]
          exact Bool.eq_false_iff.mpr hm
        | succ j =>
          rw [List.getElem?_cons_succ] at hx
          exact hfirst j x (by omega) hx

theorem methodExist_index (core : Core) (c : Ctx) (i : Int) :
    methodExist core { c with index := i } = methodExist core c := rfl

theorem cannot_body_ne_empty (m p : String) : "Cannot " ++ m ++ " " ++ p ≠ "" := by
  intro h
  have hl := congrArg String.length h
  rw [String.length_append, String.length_append, String.length_append] at hl
  have h7 : ("Cannot " : String).length = 7 := rfl
  have h1 : (" " : String).length = 1 := rfl
  have h0 : ("" : String).length = 0 := rfl
  omega

/-! ### Claim theorems -/

/-- C2: on every dispatch call, the bucket is the per-method tree entry
keyed by the first three characters of the detection path (`treePath`,
recomputed at context initialization; the fallback to the empty-key
bucket is `selectTree`), and the bucket is scanned in stored order
starting just after the context's cursor: the hit reported by
`firstHit` is the first matching candidate at or after that position,
and on it `Core.next` records the matched route and its captured
values, sets the non-use-matched flag when the route is not a use
route, resets the handler cursor and invokes handler 0 of the route's
chain, returning without scanning further. -/
theorem claim2_bucket_scan_first_match :
    (∀ (core : Core) (pooled : Ctx) (req : Request),
      (Ctx.init core pooled req).treePath =
        (if 3 ≤ (Ctx.init core pooled req).detectionPath.length
         then strTake (Ctx.init core pooled req).detectionPath 3 else "")) ∧
    (∀ (core : Core) (c : Ctx) (q rid : Nat),
      firstHit core c = some (q, rid) →
      ((c.index + 1).toNat ≤ q ∧
        (selectTree core c.methodINT.toNat c.treePath)[q]? = some rid ∧
        matchesAt core c rid = true ∧
        (∀ j x, (c.index + 1).toNat ≤ j → j < q →
          (selectTree core c.methodINT.toNat c.treePath)[j]? = some x →
          matchesAt core c x = false)) ∧
      ∃ vals, routeMatch (heapGet core rid) c.detectionPath c.path c.values = some vals ∧
        coreNext core c =
          { ctx :=
              { c with
                index := Int.ofNat q, values := vals, route := some rid,
                matched := c.matched || !(heapGet core rid).use, indexHandler := 0 },
            matchRes := true, err := none, invoked := some (rid, 0) }) := by
  constructor
  · intro core pooled req
    rfl
  · intro core c q rid h
    have h' : findHit core c
        ((selectTree core c.methodINT.toNat c.treePath).drop ((c.index + 1).toNat))
        ((c.index + 1).toNat) = some (q, rid) := h
    obtain ⟨hle, hget, hmatch, hfirst⟩ := findHit_spec core c _ _ _ _ h'
    refine ⟨⟨hle, ?_, hmatch, ?_⟩, ?_⟩
    · rw [List.getElem?_drop] at hget
      have : (c.index + 1).toNat + (q - (c.index + 1).toNat) = q := by omega
      rwa [this] at hget
    · intro j x hjl hjq hx
      have hj' : ((selectTree core c.methodINT.toNat c.treePath).drop
          ((c.index + 1).toNat))[j - (c.index + 1).toNat]? = some x := by
        rw [List.getElem?_drop]
        have hsum : (c.index + 1).toNat + (j - (c.index + 1).toNat) = j := by omega
        rwa [hsum]
      exact hfirst (j - (c.index + 1).toNat) x (by omega) hj'
    · exact scanList_of_findHit_some core _ _ _ _ _ h'

/-- Facts about `Core.next` when the scan finds no match: status 404
with the `Cannot method path` body, no handler invoked, match flag
false, and the error value exactly as the matched-flag and
`methodExist` dictate. -/
theorem coreNext_of_no_hit (core : Core) (c : Ctx) (h : firstHit core c = none) :
    (coreNext core c).ctx.response.status = 404 ∧
    (coreNext core c).ctx.response.body = "Cannot " ++ c.method ++ " " ++ c.pathOriginal ∧
    (coreNext core c).err =
      (if !c.matched && methodExist core c then some RouterErr.methodNotAllowed else none) ∧
    (coreNext core c).invoked = none ∧
    (coreNext core c).matchRes = false := by
  have h' : findHit core c
      ((selectTree core c.methodINT.toNat c.treePath).drop ((c.index + 1).toNat))
      ((c.index + 1).toNat) = none := h
  obtain ⟨i, hs⟩ := scanList_of_findHit_none core _ _ _ h'
  have hcn : coreNext core c = notFoundOutcome core { c with index := i } := hs
  rw [hcn]
  refine ⟨?_, ?_, ?_, rfl, rfl⟩
  · simp only [notFoundOutcome, Ctx.sendStatus, Ctx.status, Ctx.sendString]
    split <;> rfl
  · simp only [notFoundOutcome, Ctx.sendStatus, Ctx.status, Ctx.sendString]
    split <;> rfl
  · simp only [notFoundOutcome]
    rfl

/-- C2 witness: on `exCore` the `GET /Hello/World` request's first hit
is route 1 at bucket position 1, and the dispatch invokes its handler
0. -/
theorem claim2_witness :
    firstHit exCore (Ctx.init exCore newCtx exReqHello) = some (1, 1) ∧
    (∃ vals,
      routeMatch (heapGet exCore 1) (Ctx.init exCore newCtx exReqHello).detectionPath
          (Ctx.init exCore newCtx exReqHello).path
          (Ctx.init exCore newCtx exReqHello).values = some vals ∧
      coreNext exCore (Ctx.init exCore newCtx exReqHello) =
        { ctx :=
            { Ctx.init exCore newCtx exReqHello with
              index := Int.ofNat 1, values := vals, route := some 1,
              matched := (Ctx.init exCore newCtx exReqHello).matched ||
                !(heapGet exCore 1).use,
              indexHandler := 0 },
          matchRes := true, err := none, invoked := some (1, 0) }) :=
  ⟨by rfl,
   (claim2_bucket_scan_first_match.2 exCore (Ctx.init exCore newCtx exReqHello) 1 1 (by rfl)).2⟩

/-- C3: on a context with a matched route, `Next()` advances the
handler cursor by one; when the chain has a handler at the new cursor
it is invoked, and when the chain is exhausted `Next()` delegates back
into `Core.next`, whose scan starts just after the context's current
route cursor (its start position is `(index + 1).toNat`, see
`coreNext`), so control falls through to the next route in stored
order. -/
theorem claim3_next_advances_or_delegates :
    ∀ (core : Core) (c : Ctx) (rid : Nat),
      c.route = some rid →
      (c.indexHandler + 1 < (heapGet core rid).Handlers.length →
        Ctx.Next core c =
          some ({ c with indexHandler := c.indexHandler + 1 },
            NextOutcome.invoke rid (c.indexHandler + 1))) ∧
      ((heapGet core rid).Handlers.length ≤ c.indexHandler + 1 →
        Ctx.Next core c =
          some ((coreNext core { c with indexHandler := c.indexHandler + 1 }).ctx,
            NextOutcome.dispatch (coreNext core { c with indexHandler := c.indexHandler + 1 }))) := by
  intro core c rid h
  constructor
  · intro hlt
    rw [Ctx.Next, h]
    simp only
    rw [if_pos hlt]
  · intro hge
    rw [Ctx.Next, h]
    simp only
    rw [if_neg (by omega)]

/-- C3 witness: on `exCtxTwo` (matched route 0, two handlers, cursor 0)
`Next()` invokes handler index 1 of route 0. -/
theorem claim3_witness :
    exCtxTwo.route = some 0 ∧
    exCtxTwo.indexHandler + 1 < (heapGet exCoreTwo 0).Handlers.length ∧
    Ctx.Next exCoreTwo exCtxTwo =
      some ({ exCtxTwo with indexHandler := exCtxTwo.indexHandler + 1 },
        NextOutcome.invoke 0 (exCtxTwo.indexHandler + 1)) :=
  ⟨by rfl, by decide,
   (claim3_next_advances_or_delegates exCoreTwo exCtxTwo 0 (by rfl)).1 (by decide)⟩

/-- C4: when the selected bucket is exhausted with no match, the
response is status 404 with body `Cannot method originalPath`, no
handler is invoked, and the scan reports the method-not-allowed error
value exactly when no concrete (non-use) route has matched for this
request and the path is registered under some other HTTP method
(`methodExist`). -/
theorem claim4_no_match_404_and_405_condition :
    ∀ (core : Core) (c : Ctx),
      firstHit core c = none →
      (coreNext core c).ctx.response.status = 404 ∧
      (coreNext core c).ctx.response.body = "Cannot " ++ c.method ++ " " ++ c.pathOriginal ∧
      ((coreNext core c).err = some RouterErr.methodNotAllowed ↔
        (c.matched = false ∧ methodExist core c = true)) ∧
      (coreNext core c).invoked = none ∧
      (coreNext core c).matchRes = false := by
  intro core c h
  obtain ⟨hst, hbd, herr, hinv, hmr⟩ := coreNext_of_no_hit core c h
  refine ⟨hst, hbd, ?_, hinv, hmr⟩
  rw [herr]
  cases hcm : c.matched <;> cases hme : methodExist core c <;> simp [hcm, hme]

/-- C4 witness: `GET /x` against a core with only `POST /x`: no hit,
404 with the `Cannot GET /x` body, and the method-not-allowed error is
reported. -/
theorem claim4_witness :
    firstHit exCorePost (Ctx.init exCorePost newCtx exReqGetX) = none ∧
    (coreNext exCorePost (Ctx.init exCorePost newCtx exReqGetX)).ctx.response.status = 404 ∧
    (coreNext exCorePost (Ctx.init exCorePost newCtx exReqGetX)).err =
      some RouterErr.methodNotAllowed :=
  ⟨by rfl,
   (claim4_no_match_404_and_405_condition exCorePost (Ctx.init exCorePost newCtx exReqGetX)
      (by rfl)).1,
   (claim4_no_match_404_and_405_condition exCorePost (Ctx.init exCorePost newCtx exReqGetX)
      (by rfl)).2.2.1.mpr ⟨by rfl, by rfl⟩⟩

/-- C5 counterexample: on `exCorePost` a `GET /x` request triggers the
method-not-allowed error, and the emitted status is 500, not the 404
the claim states: `Core.handleRequest` answers any error from the scan
with `SendStatus(500)`. -/
theorem claim5_counterexample :
    (handleRequest exCorePost newCtx exReqGetX).scan.map StepResult.err =
      some (some RouterErr.methodNotAllowed) ∧
    (handleRequest exCorePost newCtx exReqGetX).ctx.response.status = 500 ∧
    (handleRequest exCorePost newCtx exReqGetX).ctx.response.status ≠ 404 :=
  ⟨by rfl, by rfl, by decide⟩

/-- C5 amended: on a no-match outcome, the emitted status is 500 when
the method-not-allowed condition was detected (handleRequest answers
the internal error value with `SendStatus(500)`, which overwrites the
404 while keeping the `Cannot method path` body) and 404 otherwise. -/
theorem claim5_amended_status :
    ∀ (core : Core) (pooled : Ctx) (req : Request),
      methodInt req.method ≠ -1 →
      firstHit core (Ctx.init core pooled req) = none →
      (handleRequest core pooled req).ctx.response.status =
        (if methodExist core (Ctx.init core pooled req) then 500 else 404) ∧
      (handleRequest core pooled req).ctx.response.body =
        "Cannot " ++ req.method ++ " " ++ req.pathOriginal := by
  intro core pooled req hm h
  obtain ⟨hst, hbd, herr, _, _⟩ := coreNext_of_no_hit core (Ctx.init core pooled req) h
  have hmatched : (Ctx.init core pooled req).matched = false := rfl
  rw [hmatched] at herr
  simp only [Bool.not_false, Bool.true_and] at herr
  have hguard : ¬((Ctx.init core pooled req).methodINT = -1) := hm
  have hbody : "Cannot " ++ (Ctx.init core pooled req).method ++ " " ++
      (Ctx.init core pooled req).pathOriginal =
      "Cannot " ++ req.method ++ " " ++ req.pathOriginal := rfl
  have hctx : (handleRequest core pooled req).ctx =
      (match (coreNext core (Ctx.init core pooled req)).err with
       | some _ => (coreNext core (Ctx.init core pooled req)).ctx.sendStatus 500
       | none => (coreNext core (Ctx.init core pooled req)).ctx) := by
    rw [handleRequest, if_neg hguard]
  have hne : (coreNext core (Ctx.init core pooled req)).ctx.response.body ≠ "" := by
    rw [hbd, hbody]; exact cannot_body_ne_empty req.method req.pathOriginal
  by_cases hme : methodExist core (Ctx.init core pooled req)
  · have herr' : (coreNext core (Ctx.init core pooled req)).err =
        some RouterErr.methodNotAllowed := by rw [herr, if_pos hme]
    rw [hctx, herr', if_pos hme]
    have hss : (coreNext core (Ctx.init core pooled req)).ctx.sendStatus 500 =
        (coreNext core (Ctx.init core pooled req)).ctx.status 500 := by
      rw [Ctx.sendStatus,
        if_neg (show ¬(((coreNext core (Ctx.init core pooled req)).ctx.status 500).response.body
          = "") from hne)]
    constructor
    · show ((coreNext core (Ctx.init core pooled req)).ctx.sendStatus 500).response.status = 500
      rw [hss]; rfl
    · show ((coreNext core (Ctx.init core pooled req)).ctx.sendStatus 500).response.body = _
      rw [hss]
      show (coreNext core (Ctx.init core pooled req)).ctx.response.body = _
      rw [hbd, hbody]
  · have herr' : (coreNext core (Ctx.init core pooled req)).err = none := by
      rw [herr, if_neg hme]
    rw [hctx, herr', if_neg hme]
    exact ⟨hst, by rw [hbd, hbody]⟩

/-- C5 amended witness: concrete instance on `exCorePost` with
`GET /x`: the method-not-allowed condition holds and the final status
is 500. -/
theorem claim5_amended_witness :
    methodInt "GET" ≠ -1 ∧
    firstHit exCorePost (Ctx.init exCorePost newCtx exReqGetX) = none ∧
    (handleRequest exCorePost newCtx exReqGetX).ctx.response.status =
      (if methodExist exCorePost (Ctx.init exCorePost newCtx exReqGetX) then 500 else 404) :=
  ⟨by decide, by rfl,
   (claim5_amended_status exCorePost newCtx exReqGetX (by decide) (by rfl)).1⟩

/-- C1 counterexample: after `exCore` serves `GET /Hello/World` and the
context returns to the pool, acquiring it for the next request
(`Ctx.init`) leaves the previous request's captured parameter value
`World` in the value array and the previous matched-route pointer in
place — they are not reset on acquisition as the claim states. -/
theorem claim1_counterexample :
    exCtxLeak.values.headD "" = "World" ∧ exCtxLeak.route = some 1 ∧
    (Ctx.init exCore exCtxLeak exReqMiss).values.headD "" = "World" ∧
    (Ctx.init exCore exCtxLeak exReqMiss).route = some 1 :=
  ⟨by rfl, by rfl, by rfl, by rfl⟩

/-- C1 amended: `Ctx.init` on acquisition resets the method, the method
integer, the three path variants, the route cursor, the handler cursor,
the matched flag and the base URI, and attaches a fresh response; the
parameter value slots and the matched-route pointer are left untouched
(they are only overwritten when a later route match writes them). -/
theorem claim1_amended_init_resets :
    ∀ (core : Core) (c : Ctx) (req : Request),
      (Ctx.init core c req).method = req.method ∧
      (Ctx.init core c req).methodINT = methodInt req.method ∧
      (Ctx.init core c req).pathOriginal = req.pathOriginal ∧
      (Ctx.init core c req).path = req.pathOriginal ∧
      (Ctx.init core c req).detectionPath =
        (let d := if !core.CaseSensitive then ToLower req.pathOriginal else req.pathOriginal
         if 1 < d.length ∧ lastIs d '/' then TrimRight d '/' else d) ∧
      (Ctx.init core c req).treePath =
        (if 3 ≤ (Ctx.init core c req).detectionPath.length
         then strTake (Ctx.init core c req).detectionPath 3 else "") ∧
      (Ctx.init core c req).index = -1 ∧
      (Ctx.init core c req).indexHandler = 0 ∧
      (Ctx.init core c req).matched = false ∧
      (Ctx.init core c req).baseURI = "" ∧
      (Ctx.init core c req).response = { status := 200, body := "" } ∧
      (Ctx.init core c req).values = c.values ∧
      (Ctx.init core c req).route = c.route := by
  intro core c req
  exact ⟨rfl, rfl, rfl, rfl, rfl, rfl, rfl, rfl, rfl, rfl, rfl, rfl, rfl⟩

/-- C6 counterexample: with case-insensitive routing, registering
`GET /Foo` and then `GET /foo` produces two routes with the same
normalized path, use flag and method, yet the route count goes from 1
to 2 and a second stack entry is created — `Core.addRoute` compares the
raw registered path, not the normalized one, so the chains are not
merged as the claim states. -/
theorem claim6_counterexample :
    (heapGet exCoreFoo2 1).path = (heapGet exCoreFoo2 0).path ∧
    (heapGet exCoreFoo2 1).use = (heapGet exCoreFoo2 0).use ∧
    (heapGet exCoreFoo2 1).Method = (heapGet exCoreFoo2 0).Method ∧
    exCoreFoo.routesCount = 1 ∧
    exCoreFoo2.routesCount = 2 ∧
    exCoreFoo2.stack.getD 0 [] = [0, 1] :=
  ⟨by rfl, by rfl, by rfl, by rfl, by rfl, by rfl⟩

/-- C6 amended: when the new route's raw registered path (after the
leading-slash fixup) and use flag equal those of the last-inserted
route of the method, `Core.addRoute` appends the new handler chain to
that route, creates no new entry and leaves the global route count
unchanged. -/
theorem claim6_amended_merge_on_raw_path :
    ∀ (core : Core) (method : String) (rid lid : Nat),
      (core.stack.getD (methodInt method).toNat []).getLast? = some lid →
      lid < core.heap.length →
      (heapGet core lid).Path = (heapGet core rid).Path →
      (heapGet core rid).use = (heapGet core lid).use →
      (addRoute core method rid).routesCount = core.routesCount ∧
      (addRoute core method rid).stack = core.stack ∧
      heapGet (addRoute core method rid) lid =
        { heapGet core lid with
          Handlers := (heapGet core lid).Handlers ++ (heapGet core rid).Handlers } := by
  intro core method rid lid hlast hlt hpath huse
  have key : addRoute core method rid =
      buildTree { core with
        heap := core.heap.set lid
          { heapGet core lid with
            Handlers := (heapGet core lid).Handlers ++ (heapGet core rid).Handlers } } := by
    simp only [addRoute, hlast]
    rw [if_pos (And.intro hpath huse)]
  rw [key]
  refine ⟨rfl, rfl, ?_⟩
  show ((core.heap.set lid _).getD lid default) = _
  exact listGetD_set_self _ _ _ _ hlt

/-- C6 amended witness: re-registering route 0 of `exCoreFoo` onto
itself merges the chains, keeps the stack and leaves the count at 1. -/
theorem claim6_amended_witness :
    (exCoreFoo.stack.getD (methodInt "GET").toNat []).getLast? = some 0 ∧
    0 < exCoreFoo.heap.length ∧
    ((addRoute exCoreFoo "GET" 0).routesCount = exCoreFoo.routesCount ∧
      (addRoute exCoreFoo "GET" 0).stack = exCoreFoo.stack ∧
      heapGet (addRoute exCoreFoo "GET" 0) 0 =
        { heapGet exCoreFoo 0 with
          Handlers := (heapGet exCoreFoo 0).Handlers ++ (heapGet exCoreFoo 0).Handlers }) :=
  ⟨by rfl, by decide,
   claim6_amended_merge_on_raw_path exCoreFoo "GET" 0 0 (by rfl) (by decide) (by rfl) (by rfl)⟩

/-- C9: registration fails fatally (the Go panics, modelled as
`Except.error`) exactly when the upper-cased method is neither `USE`
nor a known method, when the handler chain is empty, or when the
pattern's parameter count exceeds `maxParams`. -/
theorem claim9_registration_fatal_errors :
    ∀ (core : Core) (method pathRaw : String) (handlers : List Nat),
      (∃ e, pushMethod core method pathRaw handlers = Except.error e) ↔
        ((ToUpper method ≠ methodUse ∧ methodInt (ToUpper method) = -1) ∨
          handlers = [] ∨
          maxParams < (parseRoute (fixRawPath pathRaw)).params.length) := by
  intro core method pathRaw handlers
  simp only [pushMethod]
  split_ifs with h1 h2 h3 <;> simp_all

/-- C10: an incoming request whose method is unrecognized is answered
with status 400 and body `Invalid http method`; no scan runs, the core
(route table) is returned untouched, the route cursor stays at its
reset value and the pooled context's stale route pointer is not even
replaced by a match. -/
theorem claim10_invalid_method_400 :
    ∀ (core : Core) (pooled : Ctx) (req : Request),
      methodInt req.method = -1 →
      (handleRequest core pooled req).ctx.response =
        { status := 400, body := "Invalid http method" } ∧
      (handleRequest core pooled req).core = core ∧
      (handleRequest core pooled req).scan = none ∧
      (handleRequest core pooled req).ctx.index = -1 ∧
      (handleRequest core pooled req).ctx.route = pooled.route := by
  intro core pooled req hm
  have hguard : (Ctx.init core pooled req).methodINT = -1 := hm
  rw [handleRequest, if_pos hguard]
  exact ⟨rfl, rfl, rfl, rfl, rfl⟩

/-- C10 witness: `FOO /x` against `exCore` is answered with the 400
response. -/
theorem claim10_witness :
    methodInt "FOO" = -1 ∧
    (handleRequest exCore newCtx exReqBad).ctx.response =
      { status := 400, body := "Invalid http method" } :=
  ⟨by decide, (claim10_invalid_method_400 exCore newCtx exReqBad (by decide)).1⟩

/-! ### Tree-rebuild lemmas (C7) -/

theorem lookupKey_map_keys (g : String → List Nat) :
    ∀ (keys : List String) (key : String),
      lookupKey (keys.map (fun k => (k, g k))) key =
        if key ∈ keys then some (g key) else none := by
  intro keys
  induction keys with
  | nil => intro key; simp [lookupKey]
  | cons k ks ih =>
    intro key
    by_cases hk : k = key
    · subst hk
      simp [lookupKey]
    · rw [List.map_cons, lookupKey]
      simp only
      rw [if_neg hk, ih]
      by_cases hmem : key ∈ ks
      · rw [if_pos hmem, if_pos (List.mem_cons_of_mem _ hmem)]
      · rw [if_neg hmem, if_neg (by
          intro hkc
          rcases List.mem_cons.mp hkc with rfl | h
          · exact hk rfl
          · exact hmem h)]

theorem mem_bucketRaw (c : Core) (m : Nat) (key : String) (x : Nat) :
    x ∈ bucketRaw c m key ↔ x ∈ c.stack.getD m [] ∧ treeKeyOf (heapGet c x) = key := by
  simp [bucketRaw, List.mem_filter]

theorem mem_sortByPos (c : Core) (l : List Nat) (x : Nat) :
    x ∈ sortByPos c l ↔ x ∈ l :=
  (List.perm_insertionSort _ l).mem_iff

theorem nodup_sortByPos (c : Core) (l : List Nat) (h : l.Nodup) : (sortByPos c l).Nodup :=
  ((List.perm_insertionSort _ l).nodup_iff).mpr h

theorem pairwise_sortByPos (c : Core) (l : List Nat) :
    (sortByPos c l).Pairwise (fun a b => (heapGet c a).pos ≤ (heapGet c b).pos) := by
  haveI ht : IsTotal Nat (fun a b => (heapGet c a).pos ≤ (heapGet c b).pos) :=
    ⟨fun a b => Nat.le_total _ _⟩
  haveI htr : IsTrans Nat (fun a b => (heapGet c a).pos ≤ (heapGet c b).pos) :=
    ⟨fun a b d hab hbd => Nat.le_trans hab hbd⟩
  exact List.sorted_insertionSort _ l

theorem mem_uniqueRouteStack (l : List Nat) (x : Nat) : x ∈ uniqueRouteStack l ↔ x ∈ l := by
  rw [uniqueRouteStack, mem_uniqAux]
  simp

theorem nodup_uniqueRouteStack (l : List Nat) : (uniqueRouteStack l).Nodup :=
  nodup_uniqAux l []

theorem mem_bucketFinal (c : Core) (m : Nat) (key : String) (x : Nat) :
    x ∈ bucketFinal c m key ↔
      (x ∈ c.stack.getD m [] ∧
        (treeKeyOf (heapGet c x) = key ∨ (key ≠ "" ∧ treeKeyOf (heapGet c x) = ""))) := by
  rw [bucketFinal]
  by_cases hk : key = ""
  · rw [if_pos hk, mem_sortByPos, mem_bucketRaw]
    subst hk
    simp
  · rw [if_neg hk, mem_sortByPos, mem_uniqueRouteStack, List.mem_append,
      mem_bucketRaw, mem_bucketRaw]
    constructor
    · rintro (⟨hx, ht⟩ | ⟨hx, ht⟩)
      · exact ⟨hx, Or.inl ht⟩
      · exact ⟨hx, Or.inr ⟨hk, ht⟩⟩
    · rintro ⟨hx, ht | ht⟩
      · exact Or.inl ⟨hx, ht⟩
      · exact Or.inr ⟨hx, ht.2⟩

theorem nodup_bucketFinal (c : Core) (m : Nat) (key : String) (hk : key ≠ "") :
    (bucketFinal c m key).Nodup := by
  rw [bucketFinal, if_neg hk]
  exact nodup_sortByPos _ _ (nodup_uniqueRouteStack _)

theorem pairwise_bucketFinal (c : Core) (m : Nat) (key : String) :
    (bucketFinal c m key).Pairwise (fun a b => (heapGet c a).pos ≤ (heapGet c b).pos) := by
  rw [bucketFinal]
  split_ifs <;> exact pairwise_sortByPos _ _

theorem lookupKey_buildTreeFor (c : Core) (m : Nat) (key : String) :
    lookupKey (buildTreeFor c m) key =
      if key ∈ uniqAux [] ((c.stack.getD m []).map (fun rid => treeKeyOf (heapGet c rid)))
      then some (bucketFinal c m key) else none := by
  simp only [buildTreeFor]
  exact lookupKey_map_keys _ _ _

theorem treeStack_buildTree (c : Core) (m : Nat) (hm : m < Methods.length) :
    ((buildTree c).treeStack).getD m [] = buildTreeFor c m := by
  show (((List.range Methods.length).map fun i => buildTreeFor c i).getD m []) = _
  rw [List.getD_eq_getElem _ _ (by simpa using hm)]
  simp

theorem addRoute_eq_buildTree (c : Core) (method : String) (rid : Nat) :
    ∃ c', addRoute c method rid = buildTree c' := by
  rw [addRoute]
  exact ⟨_, rfl⟩

theorem bucketSpec (X : Core) (m : Nat) (key : String) (bucket : List Nat)
    (hlk : lookupKey (buildTreeFor X m) key = some bucket) :
    (∀ r, r ∈ bucket ↔ (r ∈ X.stack.getD m [] ∧
      (treeKeyOf (heapGet X r) = key ∨ (key ≠ "" ∧ treeKeyOf (heapGet X r) = "")))) ∧
    (key ≠ "" → bucket.Nodup) ∧
    bucket.Pairwise (fun a b => (heapGet X a).pos ≤ (heapGet X b).pos) := by
  rw [lookupKey_buildTreeFor] at hlk
  by_cases hmem : key ∈ uniqAux []
      ((X.stack.getD m []).map (fun rid => treeKeyOf (heapGet X rid)))
  · rw [if_pos hmem] at hlk
    have hb : bucket = bucketFinal X m key := (Option.some.inj hlk).symm
    subst hb
    exact ⟨fun r => mem_bucketFinal X m key r,
      fun hk => nodup_bucketFinal X m key hk,
      pairwise_bucketFinal X m key⟩
  · rw [if_neg hmem] at hlk
    cases hlk

theorem bucketExists (X : Core) (m : Nat) (r : Nat) (hr : r ∈ X.stack.getD m []) :
    ∃ b, lookupKey (buildTreeFor X m) (treeKeyOf (heapGet X r)) = some b ∧ r ∈ b := by
  have hmem : treeKeyOf (heapGet X r) ∈
      uniqAux [] ((X.stack.getD m []).map (fun rid => treeKeyOf (heapGet X rid))) := by
    rw [mem_uniqAux]
    exact ⟨List.mem_map_of_mem _ hr, by simp⟩
  refine ⟨bucketFinal X m (treeKeyOf (heapGet X r)), ?_, ?_⟩
  · rw [lookupKey_buildTreeFor, if_pos hmem]
  · rw [mem_bucketFinal]
    exact ⟨hr, Or.inl rfl⟩

/-- C7: after a route insertion the rebuilt tree satisfies, for every
method and every present bucket key: the bucket holds exactly the
method's stacked routes whose tree key (first three characters of the
leading literal segment, empty when shorter) is the bucket's key,
together — for non-empty keys — with the empty-key routes, with
duplicates removed; every bucket is sorted ascending by registration
sequence number; and every stacked route is present in the bucket of
its own tree key. -/
theorem claim7_tree_rebuild :
    ∀ (c0 : Core) (method : String) (rid : Nat) (m : Nat) (key : String) (bucket : List Nat),
      m < Methods.length →
      lookupKey (((addRoute c0 method rid).treeStack).getD m []) key = some bucket →
      ((∀ r, r ∈ bucket ↔ (r ∈ (addRoute c0 method rid).stack.getD m [] ∧
          (treeKeyOf (heapGet (addRoute c0 method rid) r) = key ∨
            (key ≠ "" ∧ treeKeyOf (heapGet (addRoute c0 method rid) r) = "")))) ∧
        (key ≠ "" → bucket.Nodup) ∧
        bucket.Pairwise (fun a b =>
          (heapGet (addRoute c0 method rid) a).pos ≤ (heapGet (addRoute c0 method rid) b).pos)) ∧
      (∀ r, r ∈ (addRoute c0 method rid).stack.getD m [] →
        ∃ b, lookupKey (((addRoute c0 method rid).treeStack).getD m [])
            (treeKeyOf (heapGet (addRoute c0 method rid) r)) = some b ∧ r ∈ b) := by
  intro c0 method rid m key bucket hm hlk
  obtain ⟨c', hc'⟩ := addRoute_eq_buildTree c0 method rid
  rw [hc'] at hlk ⊢
  rw [treeStack_buildTree c' m hm] at hlk
  constructor
  · exact bucketSpec (buildTree c') m key bucket hlk
  · intro r hr
    rw [treeStack_buildTree c' m hm]
    exact bucketExists (buildTree c') m r hr

/-- C7 witness: in `exCoreFoo` after re-inserting route 0, method 0's
bucket under key `/fo` is `[0]`, and route 0's membership matches the
characterization. -/
theorem claim7_witness :
    0 < Methods.length ∧
    lookupKey (((addRoute exCoreFoo "GET" 0).treeStack).getD 0 []) "/fo" = some [0] ∧
    (0 ∈ [0] ↔ (0 ∈ (addRoute exCoreFoo "GET" 0).stack.getD 0 [] ∧
      (treeKeyOf (heapGet (addRoute exCoreFoo "GET" 0) 0) = "/fo" ∨
        ("/fo" ≠ "" ∧ treeKeyOf (heapGet (addRoute exCoreFoo "GET" 0) 0) = "")))) :=
  ⟨by decide, by rfl,
   ((claim7_tree_rebuild exCoreFoo "GET" 0 0 "/fo" [0] (by decide) (by rfl)).1.1 0)⟩

/-! ### Registration lemmas (C8) -/

theorem addRoute_stack_frame (c : Core) (mth : String) (rid j : Nat)
    (hne : (methodInt mth).toNat ≠ j) :
    ((addRoute c mth rid).stack).getD j [] = c.stack.getD j [] := by
  rcases hL : (c.stack.getD ((methodInt mth).toNat) []).getLast? with _ | lid
  · simp only [addRoute, hL]
    exact listGetD_set_ne _ _ _ _ _ hne
  · simp only [addRoute, hL]
    split_ifs
    · rfl
    · exact listGetD_set_ne _ _ _ _ _ hne

theorem addRoute_nonmerge (c : Core) (mth : String) (rid : Nat)
    (hnm : ∀ lid, (c.stack.getD (methodInt mth).toNat []).getLast? = some lid →
      ¬((heapGet c lid).Path = (heapGet c rid).Path ∧
        (heapGet c rid).use = (heapGet c lid).use)) :
    (addRoute c mth rid).stack =
      c.stack.set (methodInt mth).toNat ((c.stack.getD (methodInt mth).toNat []) ++ [rid]) ∧
    (addRoute c mth rid).heap =
      c.heap.set rid { heapGet c rid with pos := c.routesCount + 1, Method := mth } ∧
    (addRoute c mth rid).routesCount = c.routesCount + 1 ∧
    (addRoute c mth rid).CaseSensitive = c.CaseSensitive := by
  rcases hL : (c.stack.getD ((methodInt mth).toNat) []).getLast? with _ | lid
  · simp only [addRoute, hL]
    exact ⟨rfl, rfl, rfl, rfl⟩
  · simp only [addRoute, hL]
    rw [if_neg (hnm lid hL)]
    exact ⟨rfl, rfl, rfl, rfl⟩

theorem foldl_addRoute_frame :
    ∀ (ms : List String) (c : Core) (rid j : Nat),
      (∀ mth ∈ ms, (methodInt mth).toNat ≠ j) →
      ((ms.foldl (fun acc mth => addRoute acc mth rid) c).stack).getD j [] =
        c.stack.getD j [] := by
  intro ms
  induction ms with
  | nil => intro c rid j _; rfl
  | cons m rest ih =>
    intro c rid j h
    rw [List.foldl_cons,
      ih (addRoute c m rid) rid j (fun mth hm => h mth (List.mem_cons_of_mem _ hm))]
    exact addRoute_stack_frame c m rid j (h m (List.mem_cons_self _ _))

theorem foldl_addRoute_use :
    ∀ (ms : List String) (c : Core) (rid : Nat),
      rid < c.heap.length →
      (∀ mth ∈ ms, (methodInt mth).toNat < c.stack.length) →
      (∀ mth ∈ ms, ∀ x ∈ c.stack.getD (methodInt mth).toNat [], x < rid) →
      (∀ mth ∈ ms, ∀ lid, (c.stack.getD (methodInt mth).toNat []).getLast? = some lid →
        ¬((heapGet c lid).Path = (heapGet c rid).Path ∧
          (heapGet c rid).use = (heapGet c lid).use)) →
      ms.Pairwise (fun a b => (methodInt a).toNat ≠ (methodInt b).toNat) →
      ∀ mth ∈ ms,
        ((ms.foldl (fun acc m => addRoute acc m rid) c).stack).getD (methodInt mth).toNat [] =
          (c.stack.getD (methodInt mth).toNat []) ++ [rid] := by
  intro ms
  induction ms with
  | nil => intro c rid _ _ _ _ _ mth hmem; simp at hmem
  | cons m rest ih =>
    intro c rid hrid hlen hmemb hnm hpw mth hmth
    obtain ⟨hstk, hheap, _, _⟩ :=
      addRoute_nonmerge c m rid (hnm m (List.mem_cons_self _ _))
    have hpw' := List.pairwise_cons.mp hpw
    have hstklen : (addRoute c m rid).stack.length = c.stack.length := by
      rw [hstk]; exact List.length_set _ _ _
    have hheaplen : (addRoute c m rid).heap.length = c.heap.length := by
      rw [hheap]; exact List.length_set _ _ _
    have hgetrid : heapGet (addRoute c m rid) rid =
        { heapGet c rid with pos := c.routesCount + 1, Method := m } := by
      show ((addRoute c m rid).heap).getD rid default = _
      rw [hheap]
      exact listGetD_set_self _ _ _ _ hrid
    have hother : ∀ x, x < rid → heapGet (addRoute c m rid) x = heapGet c x := by
      intro x hx
      show ((addRoute c m rid).heap).getD x default = _
      rw [hheap]
      exact listGetD_set_ne _ _ _ _ _ (by omega)
    have hstackother : ∀ j, (methodInt m).toNat ≠ j →
        (addRoute c m rid).stack.getD j [] = c.stack.getD j [] := by
      intro j hj
      rw [hstk]
      exact listGetD_set_ne _ _ _ _ _ hj
    rw [List.foldl_cons]
    rcases List.mem_cons.mp hmth with rfl | hmth'
    · rw [foldl_addRoute_frame rest (addRoute c mth rid) rid _
        (fun b hb => Ne.symm (hpw'.1 b hb))]
      · rw [hstk]
        exact listGetD_set_self _ _ _ _ (hlen mth (List.mem_cons_self _ _))
    · have h1 : rid < (addRoute c m rid).heap.length := by rw [hheaplen]; exact hrid
      have h2 : ∀ b ∈ rest, (methodInt b).toNat < (addRoute c m rid).stack.length := by
        intro b hb
        rw [hstklen]
        exact hlen b (List.mem_cons_of_mem _ hb)
      have h3 : ∀ b ∈ rest, ∀ x ∈ (addRoute c m rid).stack.getD (methodInt b).toNat [],
          x < rid := by
        intro b hb x hx
        rw [hstackother _ (hpw'.1 b hb)] at hx
        exact hmemb b (List.mem_cons_of_mem _ hb) x hx
      have h4 : ∀ b ∈ rest, ∀ lid,
          ((addRoute c m rid).stack.getD (methodInt b).toNat []).getLast? = some lid →
          ¬((heapGet (addRoute c m rid) lid).Path = (heapGet (addRoute c m rid) rid).Path ∧
            (heapGet (addRoute c m rid) rid).use = (heapGet (addRoute c m rid) lid).use) := by
        intro b hb lid hlast
        rw [hstackother _ (hpw'.1 b hb)] at hlast
        have hlid_mem : lid ∈ c.stack.getD (methodInt b).toNat [] :=
          List.mem_of_mem_getLast? hlast
        have hlid_lt : lid < rid := hmemb b (List.mem_cons_of_mem _ hb) lid hlid_mem
        rw [hother lid hlid_lt, hgetrid]
        simp only
        exact hnm b (List.mem_cons_of_mem _ hb) lid hlast
      rw [ih (addRoute c m rid) rid h1 h2 h3 h4 hpw'.2 mth hmth',
        hstackother _ (hpw'.1 mth hmth')]

theorem pushMethod_use_eq (c : Core) (pathRaw : String) (handlers : List Nat)
    (hh : handlers ≠ [])
    (hp : ¬(maxParams < (parseRoute (fixRawPath pathRaw)).params.length)) :
    pushMethod c "USE" pathRaw handlers =
      Except.ok (Methods.foldl (fun acc mth => addRoute acc mth c.heap.length)
        { c with heap := c.heap ++
            [{ use := true,
               star := prettifyPath c.CaseSensitive (fixRawPath pathRaw) == "/*",
               root := prettifyPath c.CaseSensitive (fixRawPath pathRaw) == "/",
               path := prettifyPath c.CaseSensitive (fixRawPath pathRaw),
               routeParser := parseRoute (prettifyPath c.CaseSensitive (fixRawPath pathRaw)),
               Params := (parseRoute (fixRawPath pathRaw)).params,
               Path := fixRawPath pathRaw, Method := "USE",
               Handlers := handlers, pos := 0 }] }) := by
  simp only [pushMethod]
  rw [if_neg (show ¬(ToUpper "USE" ≠ methodUse ∧ methodInt (ToUpper "USE") = -1) by decide)]
  rw [if_neg hh, if_neg hp, if_pos (show ToUpper "USE" = methodUse by decide)]
  rfl

/-- C8: a `USE` registration that goes through (and does not merge into
an identical last route of any method) appends its route to the
per-method route stack of every concrete HTTP method, so it
participates in every method's buckets regardless of the requested
method. -/
theorem claim8_use_registers_all_methods :
    ∀ (c : Core) (pathRaw : String) (handlers : List Nat) (c' : Core),
      c.stack.length = Methods.length →
      (∀ m x, x ∈ c.stack.getD m [] → x < c.heap.length) →
      (∀ mth ∈ Methods, ∀ lid,
        (c.stack.getD (methodInt mth).toNat []).getLast? = some lid →
        ¬((heapGet c lid).Path = fixRawPath pathRaw ∧ (heapGet c lid).use = true)) →
      pushMethod c "USE" pathRaw handlers = Except.ok c' →
      ∀ mth ∈ Methods,
        c'.stack.getD (methodInt mth).toNat [] =
          (c.stack.getD (methodInt mth).toNat []) ++ [c.heap.length] := by
  intro c pathRaw handlers c' hlen hwf hnm hok
  have hh : handlers ≠ [] := by
    intro h0
    rw [h0] at hok
    simp only [pushMethod] at hok
    rw [if_neg (show ¬(ToUpper "USE" ≠ methodUse ∧ methodInt (ToUpper "USE") = -1)
      by decide)] at hok
    simp at hok
  by_cases hp : maxParams < (parseRoute (fixRawPath pathRaw)).params.length
  · exfalso
    simp only [pushMethod] at hok
    rw [if_neg (show ¬(ToUpper "USE" ≠ methodUse ∧ methodInt (ToUpper "USE") = -1)
      by decide)] at hok
    rw [if_neg hh, if_pos hp] at hok
    cases hok
  · rw [pushMethod_use_eq c pathRaw handlers hh hp] at hok
    injection hok with hX
    subst hX
    intro mth hmth
    have hfold := foldl_addRoute_use Methods
      { c with heap := c.heap ++
          [{ use := true,
             star := prettifyPath c.CaseSensitive (fixRawPath pathRaw) == "/*",
             root := prettifyPath c.CaseSensitive (fixRawPath pathRaw) == "/",
             path := prettifyPath c.CaseSensitive (fixRawPath pathRaw),
             routeParser := parseRoute (prettifyPath c.CaseSensitive (fixRawPath pathRaw)),
             Params := (parseRoute (fixRawPath pathRaw)).params,
             Path := fixRawPath pathRaw, Method := "USE",
             Handlers := handlers, pos := 0 }] }
      c.heap.length
      (by simp)
      (by
        intro b hb
        show (methodInt b).toNat < c.stack.length
        rw [hlen]
        revert b hb
        decide)
      (by
        intro b hb x hx
        exact hwf _ x hx)
      (by
        intro b hb lid hlast
        have hlid_mem : lid ∈ c.stack.getD (methodInt b).toNat [] :=
          List.mem_of_mem_getLast? hlast
        have hlid_lt : lid < c.heap.length := hwf _ lid hlid_mem
        have hgl : heapGet { c with heap := c.heap ++
            [{ use := true,
               star := prettifyPath c.CaseSensitive (fixRawPath pathRaw) == "/*",
               root := prettifyPath c.CaseSensitive (fixRawPath pathRaw) == "/",
               path := prettifyPath c.CaseSensitive (fixRawPath pathRaw),
               routeParser := parseRoute (prettifyPath c.CaseSensitive (fixRawPath pathRaw)),
               Params := (parseRoute (fixRawPath pathRaw)).params,
               Path := fixRawPath pathRaw, Method := "USE",
               Handlers := handlers, pos := 0 }] } lid = heapGet c lid :=
          List.getD_append _ _ _ _ hlid_lt
        have hgr : heapGet { c with heap := c.heap ++
            [{ use := true,
               star := prettifyPath c.CaseSensitive (fixRawPath pathRaw) == "/*",
               root := prettifyPath c.CaseSensitive (fixRawPath pathRaw) == "/",
               path := prettifyPath c.CaseSensitive (fixRawPath pathRaw),
               routeParser := parseRoute (prettifyPath c.CaseSensitive (fixRawPath pathRaw)),
               Params := (parseRoute (fixRawPath pathRaw)).params,
               Path := fixRawPath pathRaw, Method := "USE",
               Handlers := handlers, pos := 0 }] } c.heap.length =
            { use := true,
              star := prettifyPath c.CaseSensitive (fixRawPath pathRaw) == "/*",
              root := prettifyPath c.CaseSensitive (fixRawPath pathRaw) == "/",
              path := prettifyPath c.CaseSensitive (fixRawPath pathRaw),
              routeParser := parseRoute (prettifyPath c.CaseSensitive (fixRawPath pathRaw)),
              Params := (parseRoute (fixRawPath pathRaw)).params,
              Path := fixRawPath pathRaw, Method := "USE",
              Handlers := handlers, pos := 0 } :=
          listGetD_concat_length _ _ _
        rw [hgl, hgr]
        rintro ⟨hP, hU⟩
        exact hnm b hb lid hlast ⟨hP, hU.symm⟩)
      (by decide)
      mth hmth
    exact hfold

/-- C8 witness: pushing `USE /api` onto a fresh core appends route 0 to
the `PATCH` stack (and likewise to every other method's stack). -/
theorem claim8_witness :
    (newCore false).stack.length = Methods.length ∧
    pushMethod (newCore false) "USE" "/api" [20] =
      Except.ok (pushOk (newCore false) "USE" "/api" [20]) ∧
    (pushOk (newCore false) "USE" "/api" [20]).stack.getD (methodInt "PATCH").toNat [] =
      ((newCore false).stack.getD (methodInt "PATCH").toNat []) ++ [(newCore false).heap.length] :=
  ⟨by decide, by rfl,
   claim8_use_registers_all_methods (newCore false) "/api" [20]
     (pushOk (newCore false) "USE" "/api" [20])
     (by decide)
     (by intro m x hx; simp [newCore] at hx)
     (by intro mth hmth lid hlast; simp [newCore] at hlast)
     (by rfl)
     "PATCH" (by decide)⟩

end Cola
